import Mathlib

/-!
Shallow embedding of the morph/​sampling core of the animated tree scene
(`src/unnamed/part_000`).  JavaScript numbers are modelled as real numbers;
the `Math.random()` draws of the point samplers are made explicit arguments
in `[0,1)`.  The `THREE.MathUtils` helpers (`lerp`, `damp`, `smoothstep`)
and the GLSL operations (`mix`, `normalize`) used by the source are embedded
from their library definitions, since the source calls them directly.
-/

noncomputable section

namespace MC

/-- A 3D vector, as `THREE.Vector3` / GLSL `vec3` with real components. -/
structure Vec3 where
  x : ℝ
  y : ℝ
  z : ℝ

/-- Componentwise addition (GLSL `+`). -/
def Vec3.add (a b : Vec3) : Vec3 :=
  ⟨a.x + b.x, a.y + b.y, a.z + b.z⟩

/-- Componentwise subtraction. -/
def Vec3.sub (a b : Vec3) : Vec3 :=
  ⟨a.x - b.x, a.y - b.y, a.z - b.z⟩

/-- Scalar multiple (GLSL scalar `*` vector). -/
def Vec3.smul (c : ℝ) (v : Vec3) : Vec3 :=
  ⟨c * v.x, c * v.y, c * v.z⟩

/-- Euclidean length, as GLSL `length` / `THREE.Vector3.length`. -/
def Vec3.norm (v : Vec3) : ℝ :=
  Real.sqrt (v.x ^ 2 + v.y ^ 2 + v.z ^ 2)

/-- `THREE.Vector3.lerp(v, alpha)`: each component moves by `(v - this) * alpha`. -/
def Vec3.lerp (a b : Vec3) (t : ℝ) : Vec3 :=
  ⟨a.x + (b.x - a.x) * t, a.y + (b.y - a.y) * t, a.z + (b.z - a.z) * t⟩

/-- GLSL `mix(a, b, t) = a * (1 - t) + b * t`, componentwise. -/
def Vec3.mix (a b : Vec3) (t : ℝ) : Vec3 :=
  ⟨a.x * (1 - t) + b.x * t, a.y * (1 - t) + b.y * t, a.z * (1 - t) + b.z * t⟩

/-- GLSL `normalize(v) = v / length(v)` (the zero vector maps to zero under
the real-division convention, standing in for GLSL's unspecified value). -/
def Vec3.normalize (v : Vec3) : Vec3 :=
  Vec3.smul (Vec3.norm v)⁻¹ v

/-- `THREE.MathUtils.lerp(x, y, t) = (1 - t) * x + t * y`. -/
def lerp (x y t : ℝ) : ℝ :=
  (1 - t) * x + t * y

/-- `THREE.MathUtils.damp(x, y, lambda, dt) = lerp(x, y, 1 - exp(-lambda * dt))`. -/
def damp (x y lambda dt : ℝ) : ℝ :=
  lerp x y (1 - Real.exp (-lambda * dt))

/-- `THREE.MathUtils.smoothstep(x, min, max)`: clamps to `0` below `min` and
to `1` above `max`, and applies the cubic `k * k * (3 - 2 * k)` in between. -/
def smoothstep (x min max : ℝ) : ℝ :=
  if x ≤ min then 0
  else if max ≤ x then 1
  else
    ((x - min) / (max - min)) * ((x - min) / (max - min)) *
      (3 - 2 * ((x - min) / (max - min)))

/-- `Math.cbrt` on the nonnegative draws used by the sampler. -/
def cbrt (x : ℝ) : ℝ :=
  x ^ ((1 : ℝ) / 3)

/-- `randomPointInSphere(radius)` with the three `Math.random()` draws made
explicit: `u` (azimuth draw), `v` (cosine-of-polar draw), `w` (radius draw). -/
def randomPointInSphere (radius u v w : ℝ) : Vec3 :=
  Vec3.mk
    (cbrt w * radius * Real.sin (Real.arccos (2 * v - 1)) * Real.cos (u * 2 * Real.pi))
    (cbrt w * radius * Real.sin (Real.arccos (2 * v - 1)) * Real.sin (u * 2 * Real.pi))
    (cbrt w * radius * Real.cos (Real.arccos (2 * v - 1)))

/-- `randomPointOnCone(height, baseRadius)` with the three `Math.random()`
draws made explicit: `u` (height draw), `a` (angle draw), `j` (jitter draw). -/
def randomPointOnCone (height baseRadius u a j : ℝ) : Vec3 :=
  Vec3.mk
    (((1 - u * height / height) * baseRadius + (j - 0.5) * 0.15) * Real.cos (a * Real.pi * 2))
    (u * height - height * 0.45)
    (((1 - u * height / height) * baseRadius + (j - 0.5) * 0.15) * Real.sin (a * Real.pi * 2))

/-- Ornament interpolation fraction (`OrnamentInstances` frame loop):
`t = smoothstep(progress, 0, 1) ** (1 / weight)`. -/
def ornamentT (progress weight : ℝ) : ℝ :=
  smoothstep progress 0 1 ^ (1 / weight)

/-- Displayed ornament position: `chaos.clone().lerp(target, t)`. -/
def ornamentPosition (chaos target : Vec3) (progress weight : ℝ) : Vec3 :=
  Vec3.lerp chaos target (ornamentT progress weight)

/-- Per-instance ornament scale: `0.12 + (1 - t) * 0.04`. -/
def ornamentScale (t : ℝ) : ℝ :=
  0.12 + (1 - t) * 0.04

/-- Foliage vertex shader blend: `mix(position, target, uProgress)`. -/
def foliageMixed (position target : Vec3) (uProgress : ℝ) : Vec3 :=
  Vec3.mix position target uProgress

/-- Foliage shimmer amplitude: `sin(uTime * 1.5 + sparkle * 12.0) * 0.05`. -/
def foliageWave (uTime sparkle : ℝ) : ℝ :=
  Real.sin (uTime * 1.5 + sparkle * 12) * 0.05

/-- Displayed foliage vertex position:
`mixedPosition + normalize(mixedPosition) * wave`. -/
def foliageDisplayed (position target : Vec3) (uProgress uTime sparkle : ℝ) : Vec3 :=
  Vec3.add (foliageMixed position target uProgress)
    (Vec3.smul (foliageWave uTime sparkle) (Vec3.normalize (foliageMixed position target uProgress)))

/-- The two-valued mode of the scene. -/
inductive TreeMode where
  | CHAOS : TreeMode
  | FORMED : TreeMode
deriving DecidableEq

/-- One `useFrame` update of the progress scalar in `LuxuryScene`:
damp toward `1` in `FORMED` mode and toward `0` in `CHAOS` mode at rate `0.65`. -/
def progressStep (mode : TreeMode) (progress delta : ℝ) : ℝ :=
  damp progress (if mode = TreeMode.FORMED then 1 else 0) 0.65 delta

/-- The progress value after a sequence of frames with the given deltas. -/
def progressSteps (mode : TreeMode) (progress : ℝ) : List ℝ → ℝ
  | [] => progress
  | d :: ds => progressSteps mode (progressStep mode progress d) ds

/-- The mode flip performed by the auto-shift timer and the manual toggle:
`prev === "FORMED" ? "CHAOS" : "FORMED"`. -/
def flipMode : TreeMode → TreeMode
  | TreeMode.FORMED => TreeMode.CHAOS
  | TreeMode.CHAOS => TreeMode.FORMED

/-- The `App` state read and written by the auto-shift effect. -/
structure AppState where
  mode : TreeMode
  autoShift : Bool
deriving DecidableEq

/-- The wall-clock period of the auto-shift interval, in milliseconds. -/
def intervalMs : ℕ := 6500

/-- One wall-clock interval tick: the timer callback flips the mode, and the
timer only exists while `autoShift` is set (the effect clears it otherwise),
so a tick with auto-shift disabled changes nothing. -/
def intervalTick (s : AppState) : AppState :=
  if s.autoShift then { s with mode := flipMode s.mode } else s

/-- The app state after `n` interval ticks. -/
def ticks : ℕ → AppState → AppState
  | 0, s => s
  | n + 1, s => ticks n (intervalTick s)

/-! ### Helper lemmas -/

lemma smoothstep_nonneg (x : ℝ) : 0 ≤ smoothstep x 0 1 := by
  unfold smoothstep
  split_ifs with h1 h2
  · norm_num
  · norm_num
  · push_neg at h1 h2
    have hx0 : 0 < x := h1
    have hx1 : x < 1 := h2
    have hk : (x - 0) / (1 - 0) = x := by ring
    rw [hk]
    nlinarith

lemma smoothstep_le_one (x : ℝ) : smoothstep x 0 1 ≤ 1 := by
  unfold smoothstep
  split_ifs with h1 h2
  · norm_num
  · norm_num
  · push_neg at h1 h2
    have hx0 : 0 < x := h1
    have hx1 : x < 1 := h2
    have hk : (x - 0) / (1 - 0) = x := by ring
    rw [hk]
    nlinarith [sq_nonneg (1 - x), mul_pos hx0 hx0]

lemma smoothstep_half : smoothstep (1 / 2 : ℝ) 0 1 = 1 / 2 := by
  unfold smoothstep
  rw [if_neg (by norm_num), if_neg (by norm_num)]
  norm_num

lemma ornamentT_nonneg (p w : ℝ) : 0 ≤ ornamentT p w :=
  Real.rpow_nonneg (smoothstep_nonneg p) _

lemma ornamentT_le_one (p w : ℝ) (hw : 0 ≤ w) : ornamentT p w ≤ 1 :=
  Real.rpow_le_one (smoothstep_nonneg p) (smoothstep_le_one p) (one_div_nonneg.mpr hw)

lemma damp_factor_nonneg (lambda dt : ℝ) (hl : 0 ≤ lambda) (hdt : 0 ≤ dt) :
    0 ≤ 1 - Real.exp (-lambda * dt) := by
  have h : Real.exp (-lambda * dt) ≤ Real.exp 0 :=
    Real.exp_le_exp.mpr (by nlinarith)
  rw [Real.exp_zero] at h
  linarith

lemma damp_factor_lt_one (lambda dt : ℝ) :
    1 - Real.exp (-lambda * dt) < 1 := by
  have h : 0 < Real.exp (-lambda * dt) := Real.exp_pos _
  linarith

lemma lerp_le_max (x y t : ℝ) (ht0 : 0 ≤ t) (ht1 : t ≤ 1) :
    lerp x y t ≤ max x y := by
  unfold lerp
  rcases le_total x y with h | h
  · calc (1 - t) * x + t * y ≤ (1 - t) * y + t * y := by nlinarith
    _ = y := by ring
    _ ≤ max x y := le_max_right x y
  · calc (1 - t) * x + t * y ≤ (1 - t) * x + t * x := by nlinarith
    _ = x := by ring
    _ ≤ max x y := le_max_left x y

lemma min_le_lerp (x y t : ℝ) (ht0 : 0 ≤ t) (ht1 : t ≤ 1) :
    min x y ≤ lerp x y t := by
  unfold lerp
  rcases le_total x y with h | h
  · calc min x y ≤ x := min_le_left x y
    _ = (1 - t) * x + t * x := by ring
    _ ≤ (1 - t) * x + t * y := by nlinarith
  · calc min x y ≤ y := min_le_right x y
    _ = (1 - t) * y + t * y := by ring
    _ ≤ (1 - t) * x + t * y := by nlinarith

lemma damp_between (x y lambda dt : ℝ) (hl : 0 ≤ lambda) (hdt : 0 ≤ dt) :
    min x y ≤ damp x y lambda dt ∧ damp x y lambda dt ≤ max x y := by
  unfold damp
  constructor
  · exact min_le_lerp x y _ (damp_factor_nonneg lambda dt hl hdt)
      (le_of_lt (damp_factor_lt_one lambda dt))
  · exact lerp_le_max x y _ (damp_factor_nonneg lambda dt hl hdt)
      (le_of_lt (damp_factor_lt_one lambda dt))

lemma damp_mem_unit (x y lambda dt : ℝ) (hx0 : 0 ≤ x) (hx1 : x ≤ 1)
    (hy0 : 0 ≤ y) (hy1 : y ≤ 1) (hl : 0 ≤ lambda) (hdt : 0 ≤ dt) :
    0 ≤ damp x y lambda dt ∧ damp x y lambda dt ≤ 1 := by
  obtain ⟨h1, h2⟩ := damp_between x y lambda dt hl hdt
  constructor
  · exact le_trans (le_min hx0 hy0) h1
  · exact le_trans h2 (max_le hx1 hy1)

lemma Vec3.norm_nonneg (v : Vec3) : 0 ≤ Vec3.norm v :=
  Real.sqrt_nonneg _

lemma Vec3.norm_smul (c : ℝ) (v : Vec3) :
    Vec3.norm (Vec3.smul c v) = |c| * Vec3.norm v := by
  unfold Vec3.norm Vec3.smul
  have h : (c * v.x) ^ 2 + (c * v.y) ^ 2 + (c * v.z) ^ 2
      = c ^ 2 * (v.x ^ 2 + v.y ^ 2 + v.z ^ 2) := by ring
  rw [h, Real.sqrt_mul (sq_nonneg c), Real.sqrt_sq_eq_abs]

lemma Vec3.norm_normalize_le_one (v : Vec3) :
    Vec3.norm (Vec3.normalize v) ≤ 1 := by
  unfold Vec3.normalize
  rw [Vec3.norm_smul]
  rcases eq_or_lt_of_le (Vec3.norm_nonneg v) with h | h
  · rw [← h]
    norm_num
  · rw [abs_of_nonneg (le_of_lt (inv_pos.mpr h))]
    rw [inv_mul_cancel₀ (ne_of_gt h)]

lemma Vec3.add_sub_cancel_left (a b : Vec3) : Vec3.sub (Vec3.add a b) a = b := by
  unfold Vec3.sub Vec3.add
  congr 1 <;> ring

lemma abs_foliageWave_le (uTime sparkle : ℝ) : |foliageWave uTime sparkle| ≤ 0.05 := by
  unfold foliageWave
  rw [abs_mul, abs_of_nonneg (by norm_num : (0 : ℝ) ≤ 0.05)]
  have h := Real.abs_sin_le_one (uTime * 1.5 + sparkle * 12)
  nlinarith [abs_nonneg (Real.sin (uTime * 1.5 + sparkle * 12))]

lemma foliage_dist_le (position target : Vec3) (uProgress uTime sparkle : ℝ) :
    Vec3.norm (Vec3.sub (foliageDisplayed position target uProgress uTime sparkle)
      (Vec3.mix position target uProgress)) ≤ 0.05 := by
  have h : Vec3.sub (foliageDisplayed position target uProgress uTime sparkle)
      (Vec3.mix position target uProgress)
      = Vec3.smul (foliageWave uTime sparkle)
          (Vec3.normalize (foliageMixed position target uProgress)) := by
    unfold foliageDisplayed foliageMixed
    exact Vec3.add_sub_cancel_left _ _
  rw [h, Vec3.norm_smul]
  have h1 := abs_foliageWave_le uTime sparkle
  have h2 := Vec3.norm_normalize_le_one (foliageMixed position target uProgress)
  have h3 := Vec3.norm_nonneg (Vec3.normalize (foliageMixed position target uProgress))
  nlinarith [abs_nonneg (foliageWave uTime sparkle)]

lemma rpow_le_self_of_one_le (s e : ℝ) (hs0 : 0 ≤ s) (hs1 : s ≤ 1) (he : 1 ≤ e) :
    s ^ e ≤ s := by
  rcases eq_or_lt_of_le hs0 with h | h
  · rw [← h, Real.zero_rpow (ne_of_gt (by linarith : (0 : ℝ) < e))]
  · calc s ^ e ≤ s ^ (1 : ℝ) := Real.rpow_le_rpow_of_exponent_ge h hs1 he
      _ = s := Real.rpow_one s

lemma self_le_rpow_of_le_one (s e : ℝ) (hs0 : 0 ≤ s) (hs1 : s ≤ 1)
    (he0 : 0 < e) (he1 : e ≤ 1) : s ≤ s ^ e := by
  rcases eq_or_lt_of_le hs0 with h | h
  · rw [← h, Real.zero_rpow (ne_of_gt he0)]
  · calc s = s ^ (1 : ℝ) := (Real.rpow_one s).symm
      _ ≤ s ^ e := Real.rpow_le_rpow_of_exponent_ge h hs1 he1

lemma progressSteps_cons (mode : TreeMode) (p d : ℝ) (ds : List ℝ) :
    progressSteps mode p (d :: ds) = progressSteps mode (progressStep mode p d) ds := rfl

lemma progressSteps_append (mode : TreeMode) (p : ℝ) (l1 l2 : List ℝ) :
    progressSteps mode p (l1 ++ l2) = progressSteps mode (progressSteps mode p l1) l2 := by
  induction l1 generalizing p with
  | nil => rfl
  | cons d ds ih => rw [List.cons_append, progressSteps_cons, progressSteps_cons, ih]

lemma progressStep_mem_unit (mode : TreeMode) (p d : ℝ)
    (hp0 : 0 ≤ p) (hp1 : p ≤ 1) (hd : 0 ≤ d) :
    0 ≤ progressStep mode p d ∧ progressStep mode p d ≤ 1 := by
  unfold progressStep
  exact damp_mem_unit p _ 0.65 d hp0 hp1 (by split <;> norm_num)
    (by split <;> norm_num) (by norm_num) hd

lemma progressSteps_mem_unit (mode : TreeMode) (p : ℝ) (ds : List ℝ)
    (hp0 : 0 ≤ p) (hp1 : p ≤ 1) (hds : ∀ d ∈ ds, 0 ≤ d) :
    0 ≤ progressSteps mode p ds ∧ progressSteps mode p ds ≤ 1 := by
  induction ds generalizing p with
  | nil => exact ⟨hp0, hp1⟩
  | cons d ds ih =>
    have hd : 0 ≤ d := hds d (List.mem_cons_self d ds)
    have hstep := progressStep_mem_unit mode p d hp0 hp1 hd
    rw [progressSteps_cons]
    exact ih _ hstep.1 hstep.2 (fun e he => hds e (List.mem_cons_of_mem d he))

lemma progressStep_chaos_bounds (q d : ℝ) (hq : 0 ≤ q) (hd : 0 ≤ d) :
    0 ≤ progressStep TreeMode.CHAOS q d ∧ progressStep TreeMode.CHAOS q d ≤ q := by
  unfold progressStep
  rw [if_neg (by decide : ¬ TreeMode.CHAOS = TreeMode.FORMED)]
  have h := damp_between q 0 0.65 d (by norm_num) hd
  constructor
  · have h1 := h.1
    rw [min_eq_right hq] at h1
    exact h1
  · have h2 := h.2
    rw [max_eq_left hq] at h2
    exact h2

lemma ticks_succ_eq (n : ℕ) (s : AppState) :
    ticks (n + 1) s = intervalTick (ticks n s) := by
  induction n generalizing s with
  | zero => rfl
  | succ n ih =>
    show ticks (n + 1) (intervalTick s) = _
    rw [ih (intervalTick s)]
    rfl

lemma ticks_autoShift (n : ℕ) (s : AppState) :
    (ticks n s).autoShift = s.autoShift := by
  induction n generalizing s with
  | zero => rfl
  | succ n ih =>
    show (ticks n (intervalTick s)).autoShift = _
    rw [ih (intervalTick s)]
    unfold intervalTick
    split <;> rfl

lemma ticks_off (n : ℕ) (m : TreeMode) :
    ticks n ⟨m, false⟩ = ⟨m, false⟩ := by
  induction n with
  | zero => rfl
  | succ n ih =>
    show ticks n (intervalTick ⟨m, false⟩) = _
    have h : intervalTick ⟨m, false⟩ = ⟨m, false⟩ := by
      unfold intervalTick
      simp
    rw [h, ih]

/-! ### Claim theorems -/

/-- Claim C4: one damped update of the progress scalar toward a target in
`{0, 1}` with nonnegative damping rate and nonnegative frame delta stays in
`[0, 1]`, and the scene's frame update (rate `0.65`, target read from the
mode) keeps progress in `[0, 1]` along every sequence of nonnegative frame
deltas started from an in-range value. -/
theorem C4_progress_stays_in_unit_interval (p T lambda dt : ℝ)
    (hp0 : 0 ≤ p) (hp1 : p ≤ 1) (hT : T = 0 ∨ T = 1)
    (hl : 0 ≤ lambda) (hdt : 0 ≤ dt) :
    (0 ≤ damp p T lambda dt ∧ damp p T lambda dt ≤ 1) ∧
    ∀ (mode : TreeMode) (ds : List ℝ), (∀ d ∈ ds, 0 ≤ d) →
      0 ≤ progressSteps mode p ds ∧ progressSteps mode p ds ≤ 1 := by
  constructor
  · have hT0 : 0 ≤ T := by rcases hT with h | h <;> rw [h] <;> norm_num
    have hT1 : T ≤ 1 := by rcases hT with h | h <;> rw [h] <;> norm_num
    exact damp_mem_unit p T lambda dt hp0 hp1 hT0 hT1 hl hdt
  · intro mode ds hds
    exact progressSteps_mem_unit mode p ds hp0 hp1 hds

/-- Witness for C4 at `p = 1/2`, `T = 1`, rate `0.65`, delta `1`, and the
frame sequence `[1]` in `FORMED` mode. -/
theorem C4_witness :
    (0 : ℝ) ≤ 1 / 2 ∧ (1 / 2 : ℝ) ≤ 1 ∧ ((1 : ℝ) = 0 ∨ (1 : ℝ) = 1) ∧
    (0 : ℝ) ≤ 0.65 ∧ (0 : ℝ) ≤ 1 ∧
    (0 ≤ damp (1 / 2) 1 0.65 1 ∧ damp (1 / 2) 1 0.65 1 ≤ 1) ∧
    (0 ≤ progressSteps TreeMode.FORMED (1 / 2) [1] ∧
      progressSteps TreeMode.FORMED (1 / 2) [1] ≤ 1) := by
  have h := C4_progress_stays_in_unit_interval (1 / 2) 1 0.65 1
    (by norm_num) (by norm_num) (Or.inr rfl) (by norm_num) (by norm_num)
  refine ⟨by norm_num, by norm_num, Or.inr rfl, by norm_num, by norm_num, h.1, ?_⟩
  exact h.2 TreeMode.FORMED [1] (by intro d hd; rw [List.mem_singleton] at hd; rw [hd]; norm_num)

/-- Claim C5: a damped update lands between the current value and the target
(no overshoot past the target, no motion away from it), and starting at
progress `1` in `CHAOS` mode (target `0`) the per-frame progress sequence is
nonnegative and nonincreasing. -/
theorem C5_no_overshoot_and_monotone (p T lambda dt : ℝ)
    (hl : 0 ≤ lambda) (hdt : 0 ≤ dt) :
    (min p T ≤ damp p T lambda dt ∧ damp p T lambda dt ≤ max p T) ∧
    ∀ (ds : List ℝ) (d : ℝ), (∀ e ∈ ds, 0 ≤ e) → 0 ≤ d →
      0 ≤ progressSteps TreeMode.CHAOS 1 ds ∧
      progressSteps TreeMode.CHAOS 1 (ds ++ [d]) ≤ progressSteps TreeMode.CHAOS 1 ds := by
  constructor
  · exact damp_between p T lambda dt hl hdt
  · intro ds d hds hd
    have hmem := progressSteps_mem_unit TreeMode.CHAOS 1 ds (by norm_num) (by norm_num) hds
    refine ⟨hmem.1, ?_⟩
    rw [progressSteps_append]
    exact (progressStep_chaos_bounds _ d hmem.1 hd).2

/-- Witness for C5 at `p = 1`, `T = 0`, rate `0.65`, delta `1`, and the frame
sequence step from `[]` to `[] ++ [1]`. -/
theorem C5_witness :
    (0 : ℝ) ≤ 0.65 ∧ (0 : ℝ) ≤ 1 ∧
    (min 1 0 ≤ damp 1 0 0.65 1 ∧ damp 1 0 0.65 1 ≤ max 1 0) ∧
    0 ≤ progressSteps TreeMode.CHAOS 1 [] ∧
    progressSteps TreeMode.CHAOS 1 ([] ++ [1]) ≤ progressSteps TreeMode.CHAOS 1 [] := by
  have h := C5_no_overshoot_and_monotone 1 0 0.65 1 (by norm_num) (by norm_num)
  have h2 := h.2 [] 1 (by intro e he; exact absurd he (List.not_mem_nil e)) (by norm_num)
  exact ⟨by norm_num, by norm_num, h.1, h2.1, h2.2⟩

/-- Claim C8: the auto-shift timer runs on a 6500 ms wall-clock interval;
with auto-shift enabled each tick flips the mode exactly once (`FORMED` to
`CHAOS` and back) and changes nothing else, and with auto-shift disabled no
tick ever changes the state. -/
theorem C8_auto_shift_flips (m : TreeMode) (s : AppState) (n : ℕ) :
    intervalMs = 6500 ∧
    (ticks (n + 1) ⟨m, true⟩).mode = flipMode ((ticks n ⟨m, true⟩).mode) ∧
    (ticks n ⟨m, true⟩).autoShift = true ∧
    ticks n ⟨m, false⟩ = ⟨m, false⟩ ∧
    flipMode TreeMode.FORMED = TreeMode.CHAOS ∧
    flipMode TreeMode.CHAOS = TreeMode.FORMED ∧
    (intervalTick s).autoShift = s.autoShift ∧
    (s.autoShift = false → intervalTick s = s) := by
  refine ⟨rfl, ?_, ticks_autoShift n ⟨m, true⟩, ticks_off n m, rfl, rfl, ?_, ?_⟩
  · rw [ticks_succ_eq]
    have hauto : (ticks n ⟨m, true⟩).autoShift = true := ticks_autoShift n ⟨m, true⟩
    unfold intervalTick
    rw [if_pos hauto]
  · unfold intervalTick
    split <;> rfl
  · intro hoff
    unfold intervalTick
    rw [hoff]
    simp

/-- Claim C10: for every foliage particle the displayed vertex position
deviates from the exact blend `mix(position, target, progress)` by a vector
of Euclidean norm at most `0.05`. -/
theorem C10_foliage_shimmer_bound (position target : Vec3)
    (p uTime sparkle : ℝ) (hp0 : 0 ≤ p) (hp1 : p ≤ 1) :
    Vec3.norm (Vec3.sub (foliageDisplayed position target p uTime sparkle)
      (Vec3.mix position target p)) ≤ 0.05 :=
  foliage_dist_le position target p uTime sparkle

/-- Witness for C10 at concrete particle `(1,0,0) → (0,1,0)`, progress `0`,
time `0`, sparkle `0`. -/
theorem C10_witness :
    (0 : ℝ) ≤ 0 ∧ (0 : ℝ) ≤ 1 ∧
    Vec3.norm (Vec3.sub (foliageDisplayed ⟨1, 0, 0⟩ ⟨0, 1, 0⟩ 0 0 0)
      (Vec3.mix ⟨1, 0, 0⟩ ⟨0, 1, 0⟩ 0)) ≤ 0.05 :=
  ⟨le_refl 0, by norm_num,
    C10_foliage_shimmer_bound ⟨1, 0, 0⟩ ⟨0, 1, 0⟩ 0 0 0 (le_refl 0) (by norm_num)⟩

/-- Counterexample to C1 as stated: the weight-`1/2` group at progress `1/2`
has `t = smoothstep(1/2,0,1) ^ (1/(1/2)) = (1/2)^2 = 1/4`, strictly below the
eased progress `1/2`, so a weight below `1` does not give
`t ≥ smoothstep(p,0,1)`. -/
theorem C1_counterexample :
    (1 / 2 : ℝ) < 1 ∧ (0 : ℝ) ≤ 1 / 2 ∧ (1 / 2 : ℝ) ≤ 1 ∧
    ¬ smoothstep (1 / 2) 0 1 ≤ ornamentT (1 / 2) (1 / 2) := by
  refine ⟨by norm_num, by norm_num, by norm_num, ?_⟩
  unfold ornamentT
  rw [smoothstep_half]
  have h : (1 : ℝ) / (1 / 2) = ((2 : ℕ) : ℝ) := by norm_num
  rw [h, Real.rpow_natCast]
  norm_num

/-- Claim C1 (amended): with `t(w) = smoothstep(p,0,1) ^ (1/w)`, a group with
convergence weight `w < 1` has `t(w) ≤ smoothstep(p,0,1)` (converges slower
than linear in eased progress) and a group with weight `w > 1` has
`t(w) ≥ smoothstep(p,0,1)` (converges faster), so larger-weight groups arrive
earlier. -/
theorem C1_weight_direction (p w : ℝ) (hw : 0 < w) (hp0 : 0 ≤ p) (hp1 : p ≤ 1) :
    (w < 1 → ornamentT p w ≤ smoothstep p 0 1) ∧
    (1 < w → smoothstep p 0 1 ≤ ornamentT p w) := by
  have hs0 := smoothstep_nonneg p
  have hs1 := smoothstep_le_one p
  constructor
  · intro hw1
    have he : 1 ≤ 1 / w := by
      rw [le_div_iff hw]
      linarith
    exact rpow_le_self_of_one_le _ _ hs0 hs1 he
  · intro hw1
    have he0 : 0 < 1 / w := by positivity
    have he1 : 1 / w ≤ 1 := by
      rw [div_le_one hw]
      linarith
    exact self_le_rpow_of_le_one _ _ hs0 hs1 he0 he1

/-- Witness for C1 (amended) at `p = 1/2`, `w = 2`. -/
theorem C1_witness :
    (0 : ℝ) < 2 ∧ (0 : ℝ) ≤ 1 / 2 ∧ (1 / 2 : ℝ) ≤ 1 ∧ (1 : ℝ) < 2 ∧
    smoothstep (1 / 2) 0 1 ≤ ornamentT (1 / 2) 2 :=
  ⟨by norm_num, by norm_num, by norm_num, by norm_num,
    (C1_weight_direction (1 / 2) 2 (by norm_num) (by norm_num) (by norm_num)).2
      (by norm_num)⟩

/-- Counterexample to C3 as stated: at progress `1/2` the weight-1 fraction is
`t1 = 1/2` and the weight-2 fraction is `t2 = (1/2)^(1/2) ≥ 1/2`, which is not
`t1 * t1 = 1/4`. -/
theorem C3_counterexample :
    ¬ ornamentT (1 / 2) 2 = ornamentT (1 / 2) 1 * ornamentT (1 / 2) 1 := by
  have ht1 : ornamentT (1 / 2) 1 = 1 / 2 := by
    unfold ornamentT
    rw [smoothstep_half]
    have h : (1 : ℝ) / 1 = 1 := by norm_num
    rw [h, Real.rpow_one]
  have ht2 : (1 / 2 : ℝ) ≤ ornamentT (1 / 2) 2 := by
    unfold ornamentT
    rw [smoothstep_half]
    calc (1 / 2 : ℝ) = (1 / 2 : ℝ) ^ (1 : ℝ) := (Real.rpow_one _).symm
      _ ≤ (1 / 2 : ℝ) ^ (1 / 2 : ℝ) :=
        Real.rpow_le_rpow_of_exponent_ge (by norm_num) (by norm_num) (by norm_num)
  intro heq
  rw [ht1] at heq
  rw [heq] at ht2
  norm_num at ht2

/-- Claim C3 (amended): for weight-1 and weight-2 groups evaluated at the same
progress, the fractions satisfy `t2 * t2 = t1` (the weight-2 group's fraction
is the square root of the weight-1 group's), the correct reading of the
power-weight staggering contract. -/
theorem C3_weight_one_two_relation (p : ℝ) :
    ornamentT p 2 * ornamentT p 2 = ornamentT p 1 := by
  unfold ornamentT
  have hs0 := smoothstep_nonneg p
  rw [← Real.rpow_add' hs0 (by norm_num : (1 / 2 : ℝ) + 1 / 2 ≠ 0)]
  norm_num

/-- Claim C9: for every real progress value, in range or not, the eased value
`smoothstep(progress, 0, 1)` is clamped into `[0,1]`; hence for every positive
weight the fraction `t` is in `[0,1]`, the displayed ornament position is on
the closed chaos-target segment, and the per-instance scale
`0.12 + (1 - t) * 0.04` lies in `[0.12, 0.16]`. -/
theorem C9_ornament_clamped (p w : ℝ) (hw : 0 < w) :
    (0 ≤ smoothstep p 0 1 ∧ smoothstep p 0 1 ≤ 1) ∧
    (0 ≤ ornamentT p w ∧ ornamentT p w ≤ 1) ∧
    (∀ chaos target : Vec3, ∃ t : ℝ, 0 ≤ t ∧ t ≤ 1 ∧
      ornamentPosition chaos target p w = Vec3.lerp chaos target t) ∧
    (0.12 ≤ ornamentScale (ornamentT p w) ∧ ornamentScale (ornamentT p w) ≤ 0.16) := by
  have h0 := ornamentT_nonneg p w
  have h1 := ornamentT_le_one p w (le_of_lt hw)
  refine ⟨⟨smoothstep_nonneg p, smoothstep_le_one p⟩, ⟨h0, h1⟩, ?_, ?_⟩
  · intro chaos target
    exact ⟨ornamentT p w, h0, h1, rfl⟩
  · unfold ornamentScale
    constructor <;> nlinarith

/-- Witness for C9 at out-of-range progress `2` and weight `0.6`. -/
theorem C9_witness :
    (0 : ℝ) < 0.6 ∧
    (0 ≤ ornamentT 2 0.6 ∧ ornamentT 2 0.6 ≤ 1) ∧
    (0.12 ≤ ornamentScale (ornamentT 2 0.6) ∧ ornamentScale (ornamentT 2 0.6) ≤ 0.16) :=
  ⟨by norm_num, (C9_ornament_clamped 2 0.6 (by norm_num)).2.1,
    (C9_ornament_clamped 2 0.6 (by norm_num)).2.2.2⟩

lemma cbrt_cube (x : ℝ) (hx : 0 ≤ x) : cbrt x ^ (3 : ℕ) = x := by
  unfold cbrt
  rw [← Real.rpow_natCast (x ^ ((1 : ℝ) / 3)) 3, ← Real.rpow_mul hx]
  rw [show (1 : ℝ) / 3 * ((3 : ℕ) : ℝ) = 1 by push_cast; norm_num]
  exact Real.rpow_one x

lemma cbrt_eighth : cbrt (1 / 8 : ℝ) = 1 / 2 := by
  unfold cbrt
  rw [show (1 / 8 : ℝ) = (1 / 2 : ℝ) ^ ((3 : ℕ) : ℝ) by rw [Real.rpow_natCast]; norm_num]
  rw [← Real.rpow_mul (by norm_num : (0 : ℝ) ≤ 1 / 2)]
  rw [show ((3 : ℕ) : ℝ) * (1 / 3) = 1 by push_cast; norm_num]
  exact Real.rpow_one _

lemma randomPointInSphere_norm (R u v w : ℝ) (hR : 0 ≤ R) (hw : 0 ≤ w) :
    Vec3.norm (randomPointInSphere R u v w) = cbrt w * R := by
  have hr0 : 0 ≤ cbrt w * R := mul_nonneg (Real.rpow_nonneg hw _) hR
  simp only [Vec3.norm, randomPointInSphere]
  have hsq : (cbrt w * R * Real.sin (Real.arccos (2 * v - 1)) * Real.cos (u * 2 * Real.pi)) ^ 2 +
      (cbrt w * R * Real.sin (Real.arccos (2 * v - 1)) * Real.sin (u * 2 * Real.pi)) ^ 2 +
      (cbrt w * R * Real.cos (Real.arccos (2 * v - 1))) ^ 2 = (cbrt w * R) ^ 2 := by
    linear_combination
      (cbrt w * R) ^ 2 * Real.sin (Real.arccos (2 * v - 1)) ^ 2 *
        Real.sin_sq_add_cos_sq (u * 2 * Real.pi) +
      (cbrt w * R) ^ 2 * Real.sin_sq_add_cos_sq (Real.arccos (2 * v - 1))
  rw [hsq, Real.sqrt_sq hr0]

/-- Claim C6: with the three uniform draws explicit, the sphere sample's
Euclidean norm is exactly `cbrt w * R`, hence at most `R`, and it is below
`R / 2` exactly when the radius draw `w` is below `1/8` (the volumetric
one-eighth fraction). -/
theorem C6_sphere_radius (R u v w : ℝ) (hR : 0 < R) (hw0 : 0 ≤ w) (hw1 : w < 1) :
    Vec3.norm (randomPointInSphere R u v w) = cbrt w * R ∧
    Vec3.norm (randomPointInSphere R u v w) ≤ R ∧
    (Vec3.norm (randomPointInSphere R u v w) < R / 2 ↔ w < 1 / 8) := by
  have hnorm := randomPointInSphere_norm R u v w (le_of_lt hR) hw0
  have hc0 : 0 ≤ cbrt w := Real.rpow_nonneg hw0 _
  refine ⟨hnorm, ?_, ?_⟩
  · rw [hnorm]
    have hle : cbrt w ≤ 1 := Real.rpow_le_one hw0 (le_of_lt hw1) (by norm_num)
    nlinarith
  · rw [hnorm]
    constructor
    · intro h
      have hc : cbrt w < 1 / 2 := by nlinarith
      have hcube : cbrt w ^ (3 : ℕ) < (1 / 2 : ℝ) ^ (3 : ℕ) :=
        pow_lt_pow_left hc hc0 (by norm_num)
      rw [cbrt_cube w hw0] at hcube
      norm_num at hcube
      exact hcube
    · intro h
      have hc : cbrt w < 1 / 2 := by
        have := Real.rpow_lt_rpow hw0 h (by norm_num : (0 : ℝ) < 1 / 3)
        rw [show (1 / 8 : ℝ) ^ ((1 : ℝ) / 3) = cbrt (1 / 8) from rfl, cbrt_eighth] at this
        exact this
      nlinarith

/-- Witness for C6 at `R = 1`, draws `u = v = w = 0`. -/
theorem C6_witness :
    (0 : ℝ) < 1 ∧ (0 : ℝ) ≤ 0 ∧ (0 : ℝ) < 1 ∧
    (Vec3.norm (randomPointInSphere 1 0 0 0) = cbrt 0 * 1 ∧
      Vec3.norm (randomPointInSphere 1 0 0 0) ≤ 1 ∧
      (Vec3.norm (randomPointInSphere 1 0 0 0) < 1 / 2 ↔ (0 : ℝ) < 1 / 8)) :=
  ⟨by norm_num, le_refl 0, by norm_num,
    C6_sphere_radius 1 0 0 0 (by norm_num) (le_refl 0) (by norm_num)⟩

/-- Claim C7: with the draws explicit and `u, j` in `[0,1)`, the cone sample's
`y` coordinate lies in `[-0.45 * height, 0.55 * height)` and its horizontal
distance from the vertical axis is at most the linear silhouette radius
`(1 - (u * height) / height) * baseRadius` plus the jitter bound `0.075`. -/
theorem C7_cone_bounds (height baseRadius u a j : ℝ) (hh : 0 < height)
    (hB : 0 ≤ baseRadius) (hu0 : 0 ≤ u) (hu1 : u < 1) (hj0 : 0 ≤ j) (hj1 : j < 1) :
    (-(0.45 * height) ≤ (randomPointOnCone height baseRadius u a j).y ∧
      (randomPointOnCone height baseRadius u a j).y < 0.55 * height) ∧
    Real.sqrt ((randomPointOnCone height baseRadius u a j).x ^ 2 +
        (randomPointOnCone height baseRadius u a j).z ^ 2) ≤
      (1 - u * height / height) * baseRadius + 0.075 := by
  have hne : height ≠ 0 := ne_of_gt hh
  have hdiv : u * height / height = u := by field_simp
  have hr0 : 0 ≤ (1 - u * height / height) * baseRadius := by
    rw [hdiv]
    nlinarith
  constructor
  · constructor
    · simp only [randomPointOnCone]
      nlinarith
    · simp only [randomPointOnCone]
      nlinarith
  · have hsq : (randomPointOnCone height baseRadius u a j).x ^ 2 +
        (randomPointOnCone height baseRadius u a j).z ^ 2 =
        ((1 - u * height / height) * baseRadius + (j - 0.5) * 0.15) ^ 2 := by
      simp only [randomPointOnCone]
      linear_combination
        ((1 - u * height / height) * baseRadius + (j - 0.5) * 0.15) ^ 2 *
          Real.sin_sq_add_cos_sq (a * Real.pi * 2)
    rw [hsq, Real.sqrt_sq_eq_abs]
    have habs : |(1 - u * height / height) * baseRadius + (j - 0.5) * 0.15| ≤
        |(1 - u * height / height) * baseRadius| + |(j - 0.5) * 0.15| := abs_add _ _
    have hjit : |(j - 0.5) * 0.15| ≤ 0.075 := by
      rw [abs_mul, abs_of_nonneg (by norm_num : (0 : ℝ) ≤ 0.15)]
      have h5 : |j - 0.5| ≤ 0.5 := abs_le.mpr ⟨by linarith, by linarith⟩
      nlinarith [abs_nonneg (j - 0.5)]
    rw [abs_of_nonneg hr0] at habs
    linarith

/-- Witness for C7 at `height = 1`, `baseRadius = 1`, draws `u = a = j = 0`. -/
theorem C7_witness :
    (0 : ℝ) < 1 ∧ (0 : ℝ) ≤ 1 ∧ (0 : ℝ) ≤ 0 ∧ (0 : ℝ) < 1 ∧
    ((-(0.45 * 1) ≤ (randomPointOnCone 1 1 0 0 0).y ∧
        (randomPointOnCone 1 1 0 0 0).y < 0.55 * 1) ∧
      Real.sqrt ((randomPointOnCone 1 1 0 0 0).x ^ 2 +
          (randomPointOnCone 1 1 0 0 0).z ^ 2) ≤ (1 - 0 * 1 / 1) * 1 + 0.075) :=
  ⟨by norm_num, by norm_num, le_refl 0, by norm_num,
    C7_cone_bounds 1 1 0 0 0 (by norm_num) (by norm_num) (le_refl 0) (by norm_num)
      (le_refl 0) (by norm_num)⟩

/-- Counterexample to C2 as stated: the foliage particle with chaos and target
both `(1,0,0)`, progress `0`, sparkle `0` and time `pi/3` is displayed at
`(1.05, 0, 0)` because of the shimmer offset, which is not on the (degenerate)
chaos-target segment `{(1,0,0)}`. -/
theorem C2_counterexample :
    (0 : ℝ) ≤ 0 ∧ (0 : ℝ) ≤ 1 ∧
    ¬ ∃ t : ℝ, 0 ≤ t ∧ t ≤ 1 ∧
      foliageDisplayed ⟨1, 0, 0⟩ ⟨1, 0, 0⟩ 0 (Real.pi / 3) 0 =
        Vec3.mix ⟨1, 0, 0⟩ ⟨1, 0, 0⟩ t := by
  refine ⟨le_refl 0, by norm_num, ?_⟩
  have hm : foliageMixed ⟨1, 0, 0⟩ ⟨1, 0, 0⟩ 0 = Vec3.mk 1 0 0 := by
    simp [foliageMixed, Vec3.mix]
  have hn : Vec3.norm (Vec3.mk 1 0 0) = 1 := by
    show Real.sqrt ((1 : ℝ) ^ 2 + 0 ^ 2 + 0 ^ 2) = 1
    rw [show ((1 : ℝ) ^ 2 + 0 ^ 2 + 0 ^ 2 : ℝ) = 1 by norm_num]
    exact Real.sqrt_one
  have hwv : foliageWave (Real.pi / 3) 0 = 0.05 := by
    unfold foliageWave
    rw [show Real.pi / 3 * 1.5 + 0 * 12 = Real.pi / 2 by ring, Real.sin_pi_div_two, one_mul]
  have hd : foliageDisplayed ⟨1, 0, 0⟩ ⟨1, 0, 0⟩ 0 (Real.pi / 3) 0 = Vec3.mk 1.05 0 0 := by
    unfold foliageDisplayed
    rw [hm, hwv]
    unfold Vec3.normalize
    rw [hn]
    norm_num [Vec3.add, Vec3.smul, Vec3.mk.injEq]
  rintro ⟨t, ht0, ht1, heq⟩
  rw [hd] at heq
  have hx := congrArg Vec3.x heq
  norm_num [Vec3.mix] at hx

/-- Claim C2 (amended): for progress in `[0,1]` every displayed ornament
position is exactly a convex combination of its chaos and target positions
(fraction `t` in `[0,1]`), while a displayed foliage position lies within
Euclidean distance `0.05` of the convex-combination point at fraction equal to
the progress (the shimmer offset moves it off the segment by at most `0.05`). -/
theorem C2_segment_invariant (chaos target : Vec3) (p w uTime sparkle : ℝ)
    (hw : 0 < w) (hp0 : 0 ≤ p) (hp1 : p ≤ 1) :
    (∃ t : ℝ, 0 ≤ t ∧ t ≤ 1 ∧
      ornamentPosition chaos target p w = Vec3.lerp chaos target t) ∧
    (∃ t : ℝ, 0 ≤ t ∧ t ≤ 1 ∧
      Vec3.norm (Vec3.sub (foliageDisplayed chaos target p uTime sparkle)
        (Vec3.mix chaos target t)) ≤ 0.05) :=
  ⟨⟨ornamentT p w, ornamentT_nonneg p w, ornamentT_le_one p w (le_of_lt hw), rfl⟩,
    ⟨p, hp0, hp1, foliage_dist_le chaos target p uTime sparkle⟩⟩

/-- Witness for C2 (amended) at chaos `(0,0,0)`, target `(1,1,1)`, progress
`0`, weight `1`, time `0`, sparkle `0`. -/
theorem C2_witness :
    (0 : ℝ) < 1 ∧ (0 : ℝ) ≤ 0 ∧ (0 : ℝ) ≤ 1 ∧
    ((∃ t : ℝ, 0 ≤ t ∧ t ≤ 1 ∧
        ornamentPosition ⟨0, 0, 0⟩ ⟨1, 1, 1⟩ 0 1 = Vec3.lerp ⟨0, 0, 0⟩ ⟨1, 1, 1⟩ t) ∧
      (∃ t : ℝ, 0 ≤ t ∧ t ≤ 1 ∧
        Vec3.norm (Vec3.sub (foliageDisplayed ⟨0, 0, 0⟩ ⟨1, 1, 1⟩ 0 0 0)
          (Vec3.mix ⟨0, 0, 0⟩ ⟨1, 1, 1⟩ t)) ≤ 0.05)) :=
  ⟨by norm_num, le_refl 0, by norm_num,
    C2_segment_invariant ⟨0, 0, 0⟩ ⟨1, 1, 1⟩ 0 1 0 0 (by norm_num) (le_refl 0) (by norm_num)⟩

end MC
